import Mathlib

/-!
Verification of the politician-stock-scrapper filing pipeline.

The JavaScript sources are shallowly embedded: pure string manipulation
(`normalizeName`, `extractStringBetweenBackticks`, …) becomes functions on
`List Char` / `String`; the monitor cycle and the retry controller become
functions from explicit oracles (extraction results, store outcomes, fetched
rows) to traces of the actions they perform; code that throws returns
`Except` or is reported through an explicit error constructor.
-/

namespace PolitScrape

/-! ### JavaScript string primitives -/

/-- Characters matched by the JavaScript regex class `\s` (ASCII part). -/
def isJsWs (c : Char) : Bool :=
  c == ' ' || c == '\t' || c == '\n' || c == '\r' || c == '\x0b' || c == '\x0c'

/-- Lower-case a character sequence (JS `String.prototype.toLowerCase`,
ASCII-faithful). -/
def lowerChars (s : List Char) : List Char := s.map Char.toLower

/-- If `pat` is a prefix of `s`, return the remainder of `s`, else `none`. -/
def dropPref? (pat s : List Char) : Option (List Char) :=
  match pat, s with
  | [], s => some s
  | _ :: _, [] => none
  | p :: ps, c :: cs => if p = c then dropPref? ps cs else none

/-- Whether `needle` occurs contiguously inside `hay`
(JS `String.prototype.includes`). -/
def hasSubList (needle hay : List Char) : Bool :=
  match hay with
  | [] => (dropPref? needle []).isSome
  | _ :: rest => (dropPref? needle hay).isSome || hasSubList needle rest

/-- JS `a.includes(b)`. -/
def jsIncludes (hay needle : String) : Bool := hasSubList needle.toList hay.toList

/-- JS `String.prototype.trim` (whitespace stripped from both ends). -/
def jsTrim (s : List Char) : List Char :=
  ((s.dropWhile isJsWs).reverse.dropWhile isJsWs).reverse

/-- JS `s.startsWith(pre)`. -/
def jsStartsWith (s pre : String) : Bool :=
  (dropPref? pre.toList s.toList).isSome

/-! ### Name normalization (`normalizeName`, dataValidation.js lines 31-49) -/

/-- The replace of the anchored regex `/^tok\.?\s+/`: if the string starts with
`tok`, then an optional `.`, then at least one whitespace character, drop that
match. Used for the leading `hon.` / `dr.` honorifics. -/
def stripLeadingTitle (tok : List Char) (s : List Char) : List Char :=
  match dropPref? tok s with
  | none => s
  | some rest =>
    let rest' := if rest.head? = some '.' then rest.tail else rest
    match rest'.head? with
    | some c => if isJsWs c then rest'.dropWhile isJsWs else s
    | none => s

/-- Attempt to match the regex `/\s+tok\.?\s+/` at the current position
(which must start with whitespace); on success return the remainder of the
string after the match. -/
def embMatchAt (tok : List Char) (s : List Char) : Option (List Char) :=
  match s with
  | [] => none
  | c :: _ =>
    if isJsWs c then
      match dropPref? tok (s.dropWhile isJsWs) with
      | none => none
      | some s2 =>
        let s3 := if s2.head? = some '.' then s2.tail else s2
        match s3 with
        | [] => none
        | d :: r3 => if isJsWs d then some ((d :: r3).dropWhile isJsWs) else none
    else none

/-- The replace of the unanchored regex `/\s+tok\.?\s+/` (first occurrence
only, no `g` flag) by a single space. Used for the embedded `mrs.` / `mr.`
tokens. -/
def stripEmbedded (tok : List Char) : List Char → List Char
  | [] => []
  | c :: rest =>
    match embMatchAt tok (c :: rest) with
    | some after => ' ' :: after
    | none => c :: stripEmbedded tok rest

/-- Accumulator worker for `splitTokens`: `cur` holds the reversed characters
of the token being read. -/
def splitTokensGo (cur : List Char) : List Char → List (List Char)
  | [] => if cur.isEmpty then [] else [cur.reverse]
  | c :: rest =>
    if isJsWs c then
      if cur.isEmpty then splitTokensGo [] rest
      else cur.reverse :: splitTokensGo [] rest
    else splitTokensGo (c :: cur) rest

/-- Split on whitespace runs keeping only nonempty fields: the source's
`.split(/\s+/).filter(part => part.length > 0)` fused into one pass (the
regex split produces empty fields only at the two ends, which the filter
removes). -/
def splitTokens (s : List Char) : List (List Char) := splitTokensGo [] s

/-- The generational-suffix regex `/^(jr|sr|[ivx]+|[1-9](?:st|nd|rd|th))$/`
as a predicate on a token. -/
def isSuffixTok (t : List Char) : Bool :=
  t = ['j', 'r'] || t = ['s', 'r'] ||
  (!t.isEmpty && t.all (fun c => c == 'i' || c == 'v' || c == 'x')) ||
  (match t with
   | [d, a, b] => ('1' ≤ d && d ≤ '9') &&
       ([a, b] = ['s', 't'] || [a, b] = ['n', 'd'] || [a, b] = ['r', 'd'] ||
        [a, b] = ['t', 'h'])
   | _ => false)

/-- Lexicographic comparison of tokens by character code, the order JS
`Array.prototype.sort()` uses on strings. -/
def tokLe : List Char → List Char → Bool
  | [], _ => true
  | _ :: _, [] => false
  | a :: as, b :: bs =>
    if a.toNat < b.toNat then true
    else if b.toNat < a.toNat then false
    else tokLe as bs

/-- Insert into a `le`-sorted list. -/
def insertBy (le : α → α → Bool) (x : α) : List α → List α
  | [] => [x]
  | y :: ys => if le x y then x :: y :: ys else y :: insertBy le x ys

/-- Insertion sort by a boolean total preorder.  Models
`Array.prototype.sort(cmp)` whenever elements tied under `cmp` are
indistinguishable for the properties proved about the result. -/
def sortBy (le : α → α → Bool) : List α → List α
  | [] => []
  | x :: xs => insertBy le x (sortBy le xs)

/-- Sorting of the token array. JS `Array.prototype.sort()` compares the
tokens as strings code-unit-wise (`tokLe`); since tokens comparing equal
under that total order are identical strings, every correct sort returns the
same list, so a structural insertion sort is an exact model. -/
def sortToks : List (List Char) → List (List Char) := sortBy tokLe

/-- Join tokens with single spaces (JS `Array.prototype.join(' ')`). -/
def joinSp : List (List Char) → List Char
  | [] => []
  | [t] => t
  | t :: ts => t ++ ' ' :: joinSp ts

/-- What `joinSp` appends after its first token. -/
def joinTail : List (List Char) → List Char
  | [] => []
  | ts => ' ' :: joinSp ts

/-- A clean token: nonempty, and all of its characters are non-whitespace,
not periods or commas, and fixed by lower-casing. -/
def CleanTok (t : List Char) : Prop :=
  t ≠ [] ∧ ∀ c ∈ t, isJsWs c = false ∧ c ≠ '.' ∧ c ≠ ',' ∧ c.toLower = c

/-- A token that is none of the four honorific tokens `normalizeName`
strips. -/
def TitleFree (t : List Char) : Prop :=
  t ≠ ['h', 'o', 'n'] ∧ t ≠ ['d', 'r'] ∧ t ≠ ['m', 'r'] ∧ t ≠ ['m', 'r', 's']

instance : DecidablePred CleanTok := fun t => by
  unfold CleanTok; infer_instance

instance : DecidablePred TitleFree := fun t => by
  unfold TitleFree; infer_instance

/-- `normalizeName` from dataValidation.js: lower-case, strip a leading
`hon.`/`dr.`, strip a first embedded ` mrs. `/` mr. `, delete periods and
commas, split on whitespace, drop generational suffixes, sort, rejoin. -/
def normalizeName (name : String) : String :=
  let s := lowerChars name.toList
  let s := stripLeadingTitle ['h', 'o', 'n'] s
  let s := stripLeadingTitle ['d', 'r'] s
  let s := stripEmbedded ['m', 'r', 's'] s
  let s := stripEmbedded ['m', 'r'] s
  let s := s.filter (fun c => !(c == '.' || c == ','))
  let parts := splitTokens s
  let parts := parts.filter (fun t => !isSuffixTok t)
  let parts := sortToks parts
  String.mk (joinSp parts)

/-! ### Validator (`validateGeneratedOpenAiData`, dataValidation.js lines 61-154)

JavaScript objects with possibly-absent fields are embedded with `Option`
fields; reading a field of `undefined` (a JS `TypeError`) and an explicit
`throw new Error(...)` both surface as the `err` outcome, since both make
`validateGeneratedOpenAiData` reject by raising. -/

/-- One entry of the `Transactions` array. -/
structure TxEntry where
  idOwner : Option String
  asset : Option String
  txType : Option String
  date : Option String
  amount : Option String
deriving DecidableEq, Repr

/-- The `Filing_Information` object. -/
structure FilingInfo where
  name : Option String
  status : Option String
  stateDistrict : Option String
deriving DecidableEq, Repr

/-- The structured record produced by the Document Extractor. -/
structure TransData where
  filingInformation : Option FilingInfo
  transactions : Option (List TxEntry)
deriving DecidableEq, Repr

/-- How `validateGeneratedOpenAiData` terminates: returning normally
(`ok`), returning after the "names are similar enough to proceed with
caution" path (`okWarn`), or throwing (`err`). -/
inductive ValidationResult where
  | ok
  | okWarn
  | err (msg : String)
deriving DecidableEq, Repr

/-- Whether a validation outcome is a rejection (a thrown error). -/
def ValidationResult.isErr : ValidationResult → Bool
  | .err _ => true
  | _ => false

/-- JS falsiness of an optional string (`undefined`, `null` or `""`). -/
def jsFalsyStr : Option String → Bool
  | none => true
  | some s => s.isEmpty

/-- `hasTransactions` from dataValidation.js lines 147-154. -/
def hasTransactions (data : TransData) : Bool :=
  match data.transactions with
  | some l => decide (l.length > 0)
  | none => false

/-- `validateGeneratedOpenAiData` from dataValidation.js lines 61-125.
The mismatch fallback mirrors the source's operator precedence:
`officeMatch && A || B` groups as `(officeMatch && A) || B`. -/
def validateGeneratedOpenAiData (data : TransData)
    (nameInWebsite officeInWebsite : Option String) : ValidationResult :=
  if jsFalsyStr nameInWebsite || jsFalsyStr officeInWebsite then
    if !hasTransactions data then .err "No transactions found in processed data"
    else .ok
  else
    match data.filingInformation with
    | none => .err "TypeError: Filing_Information is undefined"
    | some fi =>
      match fi.name with
      | none => .err "TypeError: name is undefined"
      | some tName =>
        match fi.stateDistrict with
        | none => .err "TypeError: office is undefined"
        | some tOffice =>
          let wName := nameInWebsite.getD ""
          let wOffice := officeInWebsite.getD ""
          let normalizedWebsiteName := normalizeName wName
          let normalizedTransactionName := normalizeName tName
          let nameMatch := normalizedWebsiteName == normalizedTransactionName
          let officeMatch :=
            jsIncludes (String.mk (lowerChars tOffice.toList))
              (String.mk (lowerChars wOffice.toList))
          if !nameMatch || !officeMatch then
            if (officeMatch && jsIncludes normalizedWebsiteName normalizedTransactionName)
                || jsIncludes normalizedTransactionName normalizedWebsiteName then
              if !hasTransactions data then
                .err "No transactions found in processed data"
              else .okWarn
            else .err "Data mismatch between website and filing"
          else
            if !hasTransactions data then
              .err "No transactions found in processed data"
            else .ok

/-- A sample transaction entry. -/
def sampleTx : TxEntry :=
  { idOwner := some "Self", asset := some "Company Stock",
    txType := some "Purchase", date := some "2023-01-01",
    amount := some "$1,001 - $15,000" }

/-! ### Retry Controller (`retryDelays` in config.js, `retryProcessPDFData`
and `processPDFTransactionData` in both pipeline versions)

The extractor (`convertPDFToJSON`) is an oracle `extract : Nat → Option
TransData` giving the result of the n-th extraction call of the cycle
(`none` = the call throws).  A run is summarised by its returned value, the
list of delays actually slept, and the number of extraction calls made. -/

/-- `retryDelays` from config.js lines 117-123, in milliseconds. -/
def retryDelays : List Nat := [0, 3 * 60000, 7 * 60000, 30 * 60000, 8 * 3600000]

/-- Trace of one document-processing run. -/
structure RetryTrace where
  result : Option TransData
  slept : List Nat
  calls : Nat
deriving DecidableEq, Repr

/-- The `while (attempt < retryDelays.length)` loop of `retryProcessPDFData`,
iterating over the remaining entries of `retryDelays`; the current entry is
the delay slept after a failure of this attempt, and `rest.isEmpty` is the
`attempt === retryDelays.length - 1` break. `call` numbers the extraction
calls of the surrounding cycle. -/
def retryGo (extract : Nat → Option TransData) (call : Nat) :
    List Nat → RetryTrace
  | [] => ⟨none, [], 0⟩
  | d :: rest =>
    match extract call with
    | some x => ⟨some x, [], 1⟩
    | none =>
      if rest.isEmpty then ⟨none, [], 1⟩
      else
        let t := retryGo extract (call + 1) rest
        ⟨t.result, d :: t.slept, t.calls + 1⟩

/-- `retryProcessPDFData` (index.js lines 182-202 and pdfProcessing.js lines
78-107): up to `retryDelays.length` extraction attempts, sleeping
`retryDelays[attempt]` between consecutive ones; returns `null` after the
last failure instead of raising. `base` is the index of its first
extraction call within the cycle. -/
def retryProcessPDFData (extract : Nat → Option TransData) (base : Nat) :
    RetryTrace :=
  retryGo extract base retryDelays

/-- `processPDFTransactionData`, old pipeline (index.js lines 148-180): one
initial download+extract+validate attempt inside `try`; any error falls to
`catch`, which delegates to `retryProcessPDFData`. `validOk d` says whether
`validateGeneratedOpenAiData` passes on `d` (the retry attempts themselves
skip validation). -/
def processPDFTransactionDataOld (extract : Nat → Option TransData)
    (validOk : TransData → Bool) : RetryTrace :=
  match extract 0 with
  | some d =>
    if validOk d then ⟨some d, [], 1⟩
    else
      let t := retryProcessPDFData extract 1
      ⟨t.result, t.slept, t.calls + 1⟩
  | none =>
    let t := retryProcessPDFData extract 1
    ⟨t.result, t.slept, t.calls + 1⟩

/-- `processPDFTransactionData`, new pipeline (pdfProcessing.js lines
27-69): a single download+extract+validate attempt; the `catch` returns
`null` directly and `retryProcessPDFData` is never invoked. -/
def processPDFTransactionDataNew (extract : Nat → Option TransData)
    (validOk : TransData → Bool) : RetryTrace :=
  match extract 0 with
  | some d => if validOk d then ⟨some d, [], 1⟩ else ⟨none, [], 1⟩
  | none => ⟨none, [], 1⟩

/-! ### Monitor cycle (`checkAndUpdateLatestTransactionData`, old version in
transactionChecker.js, new version in checkLastTransaction.js)

Each cycle is a function from the initial `oldPDFUrl` state and oracles for
its collaborators to the ordered list of externally-visible actions it
performs, the final `oldPDFUrl`, and whether it terminated by throwing. -/

/-- The three event statuses the cycles emit. -/
inductive EvStatus where
  | alert
  | error
  | finishedChecking
deriving DecidableEq, Repr

/-- A lifecycle event passed to the update callback. -/
structure Ev where
  status : EvStatus
  message : String
  pdfUrl : Option String
  transaction : Option TransData
deriving DecidableEq, Repr

/-- An externally-visible action of a cycle, in execution order. -/
inductive CAct where
  | fetchCall
  | processCall
  | persistCall
  | emit (e : Ev)
  | setState (url : String)
deriving DecidableEq, Repr

/-- Result of one cycle: ordered action trace, final `oldPDFUrl`, and
whether the cycle threw. -/
structure CycleOut where
  trace : List CAct
  finalState : Option String
  threw : Bool
deriving DecidableEq, Repr

/-- The events of a trace, in order. -/
def eventsOf (tr : List CAct) : List Ev :=
  tr.filterMap fun a => match a with
    | .emit e => some e
    | _ => none

/-- How many persistence-gateway writes a trace performs. -/
def persistCount (tr : List CAct) : Nat :=
  tr.countP fun a => a = .persistCall

/-- Whether the cycle invoked `processPDFTransactionData` (the only path to
the Document Extractor). -/
def processInvoked (tr : List CAct) : Bool :=
  tr.any fun a => a = .processCall

/-- A candidate filing descriptor as produced by the Source Fetcher. -/
structure Candidate where
  id : String
  name : String
  office : String
  filingYear : String
  pdfUrl : String
deriving DecidableEq, Repr

/-- Old monitor cycle, transactionChecker.js lines 8-73: `runScrapper`
(absent from this tree, supplied as the `newPDFUrl` input) yields the top
candidate URL; on a new URL the PDF is processed (`procResult` is the
`processPDFTransactionData` return), a `null` result emits one `error` event
and throws, otherwise the record is stored (`storeOk` is the
`storeTransactionDataInDatabase` outcome; a failure propagates), the `alert`
event is emitted, and only then `oldPDFUrl` is updated. -/
def checkAndUpdateOld (oldPDFUrl : Option String) (newPDFUrl : String)
    (procResult : Option TransData) (storeOk : Bool) : CycleOut :=
  if oldPDFUrl ≠ some newPDFUrl then
    match procResult with
    | none =>
      ⟨[.fetchCall, .processCall,
        .emit ⟨.error,
          "Error processing transaction data correctly after multiple attempts.",
          none, none⟩],
        oldPDFUrl, true⟩
    | some d =>
      if storeOk then
        ⟨[.fetchCall, .processCall, .persistCall,
          .emit ⟨.alert, "New transaction data found!", none, some d⟩,
          .setState newPDFUrl],
          some newPDFUrl, false⟩
      else
        ⟨[.fetchCall, .processCall, .persistCall], oldPDFUrl, true⟩
  else
    ⟨[.fetchCall, .emit ⟨.finishedChecking, "new data not found.", none, none⟩],
      oldPDFUrl, false⟩

/-- New monitor cycle, checkLastTransaction.js lines 33-107:
`getLatestTransaction` may throw (`fetched = .error`), return no candidate,
or return the top candidate; a candidate equal to `oldPDFUrl` short-circuits
with a `finished checking` event; otherwise the PDF is processed, a `null`
result emits one `error` event and throws, and a successful result emits the
`alert` event and updates `oldPDFUrl`.  This version performs no
persistence call (`storeTransactionDataInDatabase` is imported but never
invoked). -/
def checkAndUpdateNew (oldPDFUrl : Option String)
    (fetched : Except String (Option Candidate))
    (procResult : Option TransData) : CycleOut :=
  match fetched with
  | .error _ => ⟨[.fetchCall], oldPDFUrl, true⟩
  | .ok none => ⟨[.fetchCall], oldPDFUrl, false⟩
  | .ok (some latest) =>
    if oldPDFUrl = some latest.pdfUrl then
      ⟨[.fetchCall,
        .emit ⟨.finishedChecking, "No new filings found.", none, none⟩],
        oldPDFUrl, false⟩
    else
      match procResult with
      | none =>
        ⟨[.fetchCall, .processCall,
          .emit ⟨.error,
            "Error processing filing data correctly after multiple attempts.",
            none, none⟩],
          oldPDFUrl, true⟩
      | some d =>
        ⟨[.fetchCall, .processCall,
          .emit ⟨.alert, "New filing data found!", some latest.pdfUrl, some d⟩,
          .setState latest.pdfUrl],
          some latest.pdfUrl, false⟩

/-! ### OpenAI response conversion (`convertPDFToJSON` in openai.js,
`extractStringBetweenBackticks` and `isJSON` in dataValidation.js)

`JSON.parse` is a host builtin, embedded as an oracle
`parse : String → Option JsVal` (`none` = the parse throws); `JsVal` is the
JavaScript value a successful parse yields. -/

/-- A JavaScript value relevant to the conversion step. -/
inductive JsVal where
  | str (s : String)
  | boolean (b : Bool)
  | record (d : TransData)
  | other
deriving DecidableEq, Repr

/-- JS string coercion `String(v)` for the values that reach `JSON.parse`
in the conversion step. -/
def jsToString : JsVal → String
  | .str s => s
  | .boolean b => if b then "true" else "false"
  | .record _ => "[object Object]"
  | .other => "undefined"

/-- `isJSON` from dataValidation.js lines 220-230.  The source checks
`typeof text !== "string"`, but `text` is an undeclared identifier whose
`typeof` is `"undefined"`, so the guard always takes the early
`return false` and the `JSON.parse(obj)` branch is unreachable. -/
def isJSON (_parse : String → Option JsVal) (_obj : JsVal) : Bool :=
  let typeofText := "undefined"
  if typeofText != "string" then false
  else true

/-- Split `s` at the first occurrence of `pat`: the characters before the
match and the characters after it. -/
def findSplit (pat : List Char) : List Char → Option (List Char × List Char)
  | [] =>
    match dropPref? pat [] with
    | some after => some ([], after)
    | none => none
  | c :: rest =>
    match dropPref? pat (c :: rest) with
    | some after => some ([], after)
    | none =>
      match findSplit pat rest with
      | some (b, a) => some (c :: b, a)
      | none => none

/-- A triple backtick. -/
def fence : List Char := "```".toList

/-- `"```json"`. -/
def fenceJson : List Char := "```json".toList

/-- Fuel-indexed worker for the `/```([\s\S]*?)```/g` generic code-block
scan: the text between the (2k+1)-th and (2k+2)-th triple backticks, for
each k.  Every step strictly shortens the remaining text, so fuel
`s.length + 1` never runs out. -/
def genericBlocksGo : Nat → List Char → List (List Char)
  | 0, _ => []
  | fuel + 1, s =>
    match findSplit fence s with
    | none => []
    | some (_, after) =>
      match findSplit fence after with
      | none => []
      | some (content, rest) => content :: genericBlocksGo fuel rest

/-- The successive contents matched by the generic code-block regex. -/
def genericBlocks (s : List Char) : List (List Char) :=
  genericBlocksGo (s.length + 1) s

/-- The `/```json\s*([\s\S]*?)```/` match: text after the first
`"```json"`, leading whitespace dropped (the greedy `\s*`), up to the next
triple backtick. -/
def jsonTagBlock (s : List Char) : Option (List Char) :=
  match findSplit fenceJson s with
  | none => none
  | some (_, after) =>
    match findSplit fence (after.dropWhile isJsWs) with
    | none => none
    | some (content, _) => some content

/-- `extractStringBetweenBackticks` from dataValidation.js lines 163-212:
first try the `"```json"`-tagged block and return its trimmed content if it
parses; otherwise scan all generic backtick blocks, skipping contents whose
trimmed text starts with `"The"` or `"Given"`, and return the first one
that parses; otherwise report failure (the source returns `false`). -/
def extractStringBetweenBackticks (parse : String → Option JsVal)
    (text : String) : Option String :=
  let s := text.toList
  let fromTag : Option String :=
    match jsonTagBlock s with
    | none => none
    | some content =>
      let extracted := String.mk (jsTrim content)
      if (parse extracted).isSome then some extracted else none
  match fromTag with
  | some extracted => some extracted
  | none =>
    let candidates := (genericBlocks s).filterMap fun content =>
      let t := String.mk (jsTrim content)
      if jsStartsWith t "The" || jsStartsWith t "Given" then none
      else if (parse t).isSome then some t
      else none
    candidates.head?

/-- `convertPDFToJSON` from openai.js lines 16-87, after the assistant
round-trip produced the response text `respText`.  `data` starts as that
string; `isJSON` always answers `false` (see `isJSON`), so the code always
tries to unwrap backticks.  When `extractStringBetweenBackticks` finds no
JSON it returns the boolean `false`, and `JSON.parse(false)` coerces its
argument to the string `"false"` — which parses — so the `catch` is not
reached and the boolean `false` is returned as the converted data. -/
def convertPDFToJSON (parse : String → Option JsVal) (respText : String) :
    Except String JsVal :=
  let data := JsVal.str respText
  if !isJSON parse data then
    match extractStringBetweenBackticks parse respText with
    | some extracted =>
      match parse extracted with
      | some v => .ok v
      | none => .error "Error with openAI conversion: OpenAI did not return a JSON object."
    | none =>
      match parse (jsToString (JsVal.boolean false)) with
      | some v => .ok v
      | none => .error "Error with openAI conversion: OpenAI did not return a JSON object."
  else .ok data

/-! ### Source Fetcher (`getTransactions`, `getLatestTransaction`,
`fetchPolititianTransactions`, `sortByIdDescending` in transaction.js)

The HTTP fetch and the DOM are host collaborators: the fetch outcome is
`Except String (Option (List Row))` — `.error` when
`fetchPolititianTransactions` throws (network failure or non-OK status,
which it logs and rethrows), `.ok none` when the response text is falsy,
`.ok (some rows)` the parsed `tbody tr` rows. -/

/-- One table row as the DOM exposes it to `getTransactions`: each
`querySelector` result is optional; the name cell carries an optional
`href` attribute and its text content. -/
structure Row where
  filingType : Option String
  nameHref : Option (Option String)
  nameText : String
  officeText : Option String
  filingYearText : Option String
deriving DecidableEq, Repr

/-- JS `parseInt(s, 10)` restricted to what reaches it here: the value of a
leading run of decimal digits, or `none` (NaN) when there is none. -/
def parseIntJs (s : String) : Option Nat :=
  let ds := s.toList.takeWhile Char.isDigit
  if ds.isEmpty then none
  else some (ds.foldl (fun n c => 10 * n + (c.toNat - '0'.toNat)) 0)

/-- The comparator of `sortByIdDescending` (transaction.js lines 284-298):
NaN ids sort last, otherwise descending numeric order via `idB - idA`. -/
def sortCmp (a b : Candidate) : Int :=
  match parseIntJs a.id, parseIntJs b.id with
  | none, none => 0
  | none, some _ => 1
  | some _, none => -1
  | some x, some y => (y : Int) - (x : Int)

/-- The comparator of `sortByIdDescending` as a boolean preorder:
`a` may come before `b` when `sortCmp a b ≤ 0`. -/
def candLe (a b : Candidate) : Bool := decide (sortCmp a b ≤ 0)

/-- `sortByIdDescending` (transaction.js lines 284-298): sorts with
`sortCmp`.  The comparator is a total preorder whose ties are only between
candidates with equal numeric keys (or jointly NaN keys), so insertion sort
by it models the engine's sort up to the order of tied elements, which the
ordering property does not distinguish. -/
def sortByIdDescending : List Candidate → List Candidate := sortBy candLe

/-- The match of `/\/(\d+)\.pdf$/` on an href: the digits between a final
`/`-prefixed digit run and a terminal `".pdf"`. -/
def hrefPdfId (href : String) : Option String :=
  match dropPref? (".pdf".toList.reverse) href.toList.reverse with
  | none => none
  | some revRest =>
    let revDigits := revRest.takeWhile Char.isDigit
    if revDigits.isEmpty then none
    else if (revRest.dropWhile Char.isDigit).head? = some '/' then
      some (String.mk revDigits.reverse)
    else none

/-- The per-row body of the `rows.forEach` in `getTransactions`
(transaction.js lines 190-235): skip non-PTR rows, rows with missing cells,
hrefs without `"ptr-pdfs"` or without a numeric `/id.pdf` tail; otherwise
build the candidate with trimmed texts and the resolved PDF URL. -/
def parseRow (row : Row) : Option Candidate :=
  match row.filingType with
  | none => none
  | some ft =>
    if !jsIncludes ft "PTR" then none
    else
      match row.nameHref, row.officeText, row.filingYearText with
      | some href?, some office, some fy =>
        match href? with
        | none => none
        | some href =>
          if !jsIncludes href "ptr-pdfs" then none
          else
            match hrefPdfId href with
            | none => none
            | some id =>
              let cleanHref :=
                if jsStartsWith href "/" then href else "/" ++ href
              some { id := id,
                     name := String.mk (jsTrim row.nameText.toList),
                     office := String.mk (jsTrim office.toList),
                     filingYear := String.mk (jsTrim fy.toList),
                     pdfUrl := "https://disclosures-clerk.house.gov" ++ cleanHref }
      | _, _, _ => none

/-- `getTransactions` (transaction.js lines 175-243): a throwing fetch
propagates (the `await` is outside the `try`); a falsy response text
returns `[]`; otherwise the qualifying rows are collected and sorted by
descending numeric id. -/
def getTransactions (fetched : Except String (Option (List Row))) :
    Except String (List Candidate) :=
  match fetched with
  | .error e => .error e
  | .ok none => .ok []
  | .ok (some rows) => .ok (sortByIdDescending (rows.filterMap parseRow))

/-- `getLatestTransaction` (transaction.js lines 162-165): the head of
`getTransactions` (JS `transactions[0]`, `undefined` on an empty array). -/
def getLatestTransaction (fetched : Except String (Option (List Row))) :
    Except String (Option Candidate) :=
  match getTransactions fetched with
  | .error e => .error e
  | .ok l => .ok l.head?

/-! ### Event Broadcaster (`sendSSEUpdate` in transactionDataSSE.js, legacy
`transactionUpdate` in index.js lines 19-24)

A subscriber channel is a client id plus whether writing to its response
succeeds (`writeOk = false` models a closed channel whose write throws). -/

/-- A registered SSE subscriber. -/
structure Client where
  id : Nat
  writeOk : Bool
deriving DecidableEq, Repr

/-- The `clients.forEach` of `sendSSEUpdate` (transactionDataSSE.js lines
64-75): each client is written to inside its own `try`; a throwing write
reaches the `catch`, which deletes that client from the registry and lets
the loop continue.  Returns the final registry and the ids written to, in
order. -/
def broadcastGo : List Client → List Client → List Nat →
    List Client × List Nat
  | [], registry, delivered => (registry, delivered)
  | c :: rest, registry, delivered =>
    if c.writeOk then broadcastGo rest registry (delivered ++ [c.id])
    else broadcastGo rest (registry.filter fun x => !(x.id == c.id)) delivered

/-- `sendSSEUpdate`: broadcast to every currently registered client. -/
def sendSSEUpdate (clients : List Client) : List Client × List Nat :=
  broadcastGo clients clients []

/-- The legacy `transactionUpdate` callback (index.js lines 19-24):
`clients.forEach((client) => client.write(...))` with no error handling —
a throwing write aborts the loop, removes nobody, and propagates to the
caller.  Returns the ids written to before the failure. -/
def transactionUpdateLegacy : List Client → Except String (List Nat)
  | [] => .ok []
  | c :: rest =>
    if c.writeOk then
      match transactionUpdateLegacy rest with
      | .ok ids => .ok (c.id :: ids)
      | .error e => .error e
    else .error "write failed"

/-! ### Auxiliary definitions used by lemmas, witnesses and
counterexamples -/

/-- A sample top candidate. -/
def sampleCand : Candidate :=
  { id := "20026590", name := "A. Politician", office := "CA05",
    filingYear := "2024",
    pdfUrl := "https://disclosures-clerk.house.gov/public_disc/ptr-pdfs/2024/20026590.pdf" }

/-- A sample extracted record. -/
def sampleData : TransData :=
  ⟨some ⟨some "A. Politician", some "Filed", some "CA05"⟩, some [sampleTx]⟩

/-- The candidate list of a fetch result (`[]` for a propagated error). -/
def okList : Except String (List Candidate) → List Candidate
  | .ok l => l
  | .error _ => []

/-- The sort key of a candidate: its id under `parseInt`, with NaN as
bottom so that NaN ids come last in the descending order. -/
def idRank (c : Candidate) : WithBot Nat :=
  match parseIntJs c.id with
  | none => ⊥
  | some n => (n : WithBot Nat)

/-- A qualifying PTR row with a low filing id. -/
def sampleRowA : Row :=
  ⟨some "PTR Original", some (some "/public_disc/ptr-pdfs/2024/10001.pdf"),
    "Doe, John", some "CA05", some "2024"⟩

/-- A qualifying PTR row with a high filing id and a relative href. -/
def sampleRowB : Row :=
  ⟨some "PTR", some (some "public_disc/ptr-pdfs/2024/20002.pdf"),
    "Roe, Jane", some "TX01", some "2024"⟩

/-- A row of a non-PTR filing type, skipped by `parseRow`. -/
def sampleRowSkip : Row :=
  ⟨some "Annual Report", some (some "/public_disc/financial-pdfs/2024/8000001.pdf"),
    "Poe, Jim", some "NY09", some "2024"⟩

/-- A stub `JSON.parse` oracle accepting exactly `"false"` and `"{}"`. -/
def parseStub : String → Option JsVal := fun s =>
  if s = "false" then some (.boolean false)
  else if s = "{}" then some .other
  else none

/-! ### Claim C1 — retry schedule -/

/-- C1 counterexample: with an always-failing extractor the old pipeline's
`processPDFTransactionData` makes six extraction calls, not five, and the
8-hour entry of `retryDelays` is never slept (only `[0, 3min, 7min, 30min]`
are); the new pipeline makes a single call and never reaches the retry
helper. -/
theorem c1_schedule_counterexample :
    (processPDFTransactionDataOld (fun _ => none) (fun _ => true)).calls = 6 ∧
    ¬ (processPDFTransactionDataOld (fun _ => none) (fun _ => true)).calls = 5 ∧
    (28800000 : Nat) ∉ (processPDFTransactionDataOld (fun _ => none) (fun _ => true)).slept ∧
    (28800000 : Nat) ∈ retryDelays ∧
    (processPDFTransactionDataNew (fun _ => none) (fun _ => true)).calls = 1 := by
  decide

/-- C1 (amended): for a document whose extraction attempts all fail,
`retryProcessPDFData` makes exactly five extraction attempts, sleeping
`[0, 3min, 7min, 30min]` between consecutive ones (the 8-hour delay is never
slept), and returns `null` without raising; the old pipeline's
`processPDFTransactionData` adds its own initial attempt for six extraction
calls in total, while the new pipeline makes a single attempt and never
calls the retry helper; in both cycle versions the `null` result then emits
exactly one `error` event. -/
theorem c1_retry_schedule (extract : Nat → Option TransData)
    (validOk : TransData → Bool) (old : Option String) (c : Candidate)
    (storeOk : Bool) (hfail : ∀ n, extract n = none)
    (hnew : old ≠ some c.pdfUrl) :
    retryProcessPDFData extract 1 =
      ⟨none, [0, 180000, 420000, 1800000], 5⟩ ∧
    processPDFTransactionDataOld extract validOk =
      ⟨none, [0, 180000, 420000, 1800000], 6⟩ ∧
    processPDFTransactionDataNew extract validOk = ⟨none, [], 1⟩ ∧
    (eventsOf (checkAndUpdateOld old c.pdfUrl none storeOk).trace).map Ev.status
      = [.error] ∧
    (eventsOf (checkAndUpdateNew old (.ok (some c)) none).trace).map Ev.status
      = [.error] := by
  have hretry : retryProcessPDFData extract 1 =
      ⟨none, [0, 180000, 420000, 1800000], 5⟩ := by
    simp [retryProcessPDFData, retryDelays, retryGo, hfail]
  refine ⟨hretry, ?_, ?_, ?_, ?_⟩
  · simp [processPDFTransactionDataOld, hfail, hretry]
  · simp [processPDFTransactionDataNew, hfail]
  · simp [checkAndUpdateOld, hnew, eventsOf]
  · simp [checkAndUpdateNew, hnew, eventsOf]

/-- C1 witness: the amended retry facts at an always-failing extractor and a
fresh monitor state. -/
theorem c1_retry_schedule_witness :
    retryProcessPDFData (fun _ => none) 1 =
      ⟨none, [0, 180000, 420000, 1800000], 5⟩ ∧
    processPDFTransactionDataOld (fun _ => none) (fun _ => true) =
      ⟨none, [0, 180000, 420000, 1800000], 6⟩ ∧
    processPDFTransactionDataNew (fun _ => none) (fun _ => true) = ⟨none, [], 1⟩ ∧
    (eventsOf (checkAndUpdateOld none sampleCand.pdfUrl none true).trace).map Ev.status
      = [.error] ∧
    (eventsOf (checkAndUpdateNew none (.ok (some sampleCand)) none).trace).map Ev.status
      = [.error] :=
  c1_retry_schedule (fun _ => none) (fun _ => true) none sampleCand true
    (fun _ => rfl) (by decide)

/-! ### Claim C2 — persistence and state-update ordering -/

/-- C2 counterexample: in the new cycle (checkLastTransaction.js) an
accepted record leads to an `alert` event and the `oldPDFUrl` update with
no persistence call at all, refuting "the accepted record is persisted via
the Persistence Gateway ... before MonitorState.documentUrl is assigned". -/
theorem c2_persist_counterexample :
    persistCount (checkAndUpdateNew none (.ok (some sampleCand)) (some sampleData)).trace = 0 ∧
    (checkAndUpdateNew none (.ok (some sampleCand)) (some sampleData)).finalState
      = some sampleCand.pdfUrl ∧
    ((eventsOf (checkAndUpdateNew none (.ok (some sampleCand)) (some sampleData)).trace).map
      Ev.status) = [.alert] := by
  decide

/-- C2 (amended): in the old cycle (transactionChecker.js) an accepted
record is persisted, then the `alert` event is emitted, and only then
`oldPDFUrl` is updated; a persistence failure leaves `oldPDFUrl` unchanged,
emits no event, throws, and the same filing is re-attempted on the next
cycle, and an extraction failure also leaves `oldPDFUrl` unchanged.  In the
new cycle no persistence call is made: the `alert` event is emitted before
the state update, and extraction failure leaves `oldPDFUrl` unchanged. -/
theorem c2_persistence_ordering (old : Option String) (c : Candidate)
    (d : TransData) (proc2 : Option TransData) (storeOk2 : Bool)
    (h : old ≠ some c.pdfUrl) :
    (checkAndUpdateOld old c.pdfUrl (some d) true).trace =
      [.fetchCall, .processCall, .persistCall,
       .emit ⟨.alert, "New transaction data found!", none, some d⟩,
       .setState c.pdfUrl] ∧
    (checkAndUpdateOld old c.pdfUrl (some d) true).finalState = some c.pdfUrl ∧
    (checkAndUpdateOld old c.pdfUrl (some d) false).finalState = old ∧
    eventsOf (checkAndUpdateOld old c.pdfUrl (some d) false).trace = [] ∧
    (checkAndUpdateOld old c.pdfUrl (some d) false).threw = true ∧
    processInvoked (checkAndUpdateOld old c.pdfUrl proc2 storeOk2).trace = true ∧
    (checkAndUpdateOld old c.pdfUrl none storeOk2).finalState = old ∧
    (checkAndUpdateNew old (.ok (some c)) (some d)).trace =
      [.fetchCall, .processCall,
       .emit ⟨.alert, "New filing data found!", some c.pdfUrl, some d⟩,
       .setState c.pdfUrl] ∧
    persistCount (checkAndUpdateNew old (.ok (some c)) (some d)).trace = 0 ∧
    (checkAndUpdateNew old (.ok (some c)) none).finalState = old := by
  refine ⟨?_, ?_, ?_, ?_, ?_, ?_, ?_, ?_, ?_, ?_⟩ <;>
    cases proc2 <;> cases storeOk2 <;>
      simp [checkAndUpdateOld, checkAndUpdateNew, h, eventsOf, persistCount,
        processInvoked]

/-- C2 witness: the ordering facts at a fresh monitor state and the sample
filing. -/
theorem c2_persistence_ordering_witness :
    (checkAndUpdateOld none sampleCand.pdfUrl (some sampleData) true).trace =
      [.fetchCall, .processCall, .persistCall,
       .emit ⟨.alert, "New transaction data found!", none, some sampleData⟩,
       .setState sampleCand.pdfUrl] ∧
    (checkAndUpdateOld none sampleCand.pdfUrl (some sampleData) true).finalState
      = some sampleCand.pdfUrl ∧
    (checkAndUpdateOld none sampleCand.pdfUrl (some sampleData) false).finalState = none ∧
    eventsOf (checkAndUpdateOld none sampleCand.pdfUrl (some sampleData) false).trace = [] ∧
    (checkAndUpdateOld none sampleCand.pdfUrl (some sampleData) false).threw = true ∧
    processInvoked (checkAndUpdateOld none sampleCand.pdfUrl (some sampleData) true).trace
      = true ∧
    (checkAndUpdateOld none sampleCand.pdfUrl none true).finalState = none ∧
    (checkAndUpdateNew none (.ok (some sampleCand)) (some sampleData)).trace =
      [.fetchCall, .processCall,
       .emit ⟨.alert, "New filing data found!", some sampleCand.pdfUrl, some sampleData⟩,
       .setState sampleCand.pdfUrl] ∧
    persistCount (checkAndUpdateNew none (.ok (some sampleCand)) (some sampleData)).trace
      = 0 ∧
    (checkAndUpdateNew none (.ok (some sampleCand)) none).finalState = none :=
  c2_persistence_ordering none sampleCand sampleData (some sampleData) true
    (by decide)

/-! ### Claim C3 — dedup skips extraction -/

/-- C3: when the fetched top candidate's URL equals the stored last-seen
URL, both cycle versions emit exactly one `finished checking` event and do
not invoke the PDF processing (hence never the Document Extractor); and a
successful cycle on a candidate always leaves that candidate's URL as the
stored state, so the next poll returning the same top candidate is exactly
this situation. -/
theorem c3_dedup_skips_extraction (c : Candidate) (proc : Option TransData)
    (storeOk : Bool) (old : Option String) (d : TransData) :
    (eventsOf (checkAndUpdateNew (some c.pdfUrl) (.ok (some c)) proc).trace).map
      Ev.status = [.finishedChecking] ∧
    processInvoked (checkAndUpdateNew (some c.pdfUrl) (.ok (some c)) proc).trace
      = false ∧
    (eventsOf (checkAndUpdateOld (some c.pdfUrl) c.pdfUrl proc storeOk).trace).map
      Ev.status = [.finishedChecking] ∧
    processInvoked (checkAndUpdateOld (some c.pdfUrl) c.pdfUrl proc storeOk).trace
      = false ∧
    (checkAndUpdateNew old (.ok (some c)) (some d)).finalState = some c.pdfUrl := by
  refine ⟨?_, ?_, ?_, ?_, ?_⟩
  · simp [checkAndUpdateNew, eventsOf]
  · simp [checkAndUpdateNew, processInvoked]
  · simp [checkAndUpdateOld, eventsOf]
  · simp [checkAndUpdateOld, processInvoked]
  · by_cases hold : old = some c.pdfUrl <;>
      simp [checkAndUpdateNew, hold]

/-! ### Claim C4 — office-mismatch fallback -/

/-- C4: a record whose name matches the reference exactly but whose office
does not match is accepted through the "names are similar enough" path
rather than rejected — the source's `officeMatch && A || B` groups as
`(officeMatch && A) || B`, so the substring fallback fires even when the
office does not match. -/
theorem c4_office_mismatch_accepted :
    validateGeneratedOpenAiData
      ⟨some ⟨some "John Smith", some "Filed", some "TX01"⟩, some [sampleTx]⟩
      (some "John Smith") (some "CA05") = .okWarn ∧
    (validateGeneratedOpenAiData
      ⟨some ⟨some "John Smith", some "Filed", some "TX01"⟩, some [sampleTx]⟩
      (some "John Smith") (some "CA05")).isErr = false := by
  decide

/-! ### Claim C7 — empty transactions always rejected -/

/-- C7: a record with an empty or missing `Transactions` array is rejected
by `validateGeneratedOpenAiData` for every combination of reference fields
(present or missing, matching or not). -/
theorem c7_empty_transactions_rejected (data : TransData)
    (nameInWebsite officeInWebsite : Option String)
    (h : data.transactions = none ∨ data.transactions = some []) :
    (validateGeneratedOpenAiData data nameInWebsite officeInWebsite).isErr
      = true := by
  obtain ⟨fi?, tx?⟩ := data
  have hht : hasTransactions ⟨fi?, tx?⟩ = false := by
    rcases h with h | h <;> simp_all [hasTransactions]
  simp only [validateGeneratedOpenAiData]
  split
  · rw [hht]; simp [ValidationResult.isErr]
  · cases fi? with
    | none => simp [ValidationResult.isErr]
    | some fi =>
      simp only []
      cases hn : fi.name with
      | none => simp [ValidationResult.isErr]
      | some tName =>
        simp only []
        cases hd : fi.stateDistrict with
        | none => simp [ValidationResult.isErr]
        | some tOffice =>
          simp only [hht]
          split
          · split
            · simp [ValidationResult.isErr]
            · simp [ValidationResult.isErr]
          · simp [ValidationResult.isErr]

/-- C7 witness: a record with matching name and office but an empty
transaction list is rejected. -/
theorem c7_empty_transactions_rejected_witness :
    (validateGeneratedOpenAiData
      ⟨some ⟨some "A. Politician", some "Filed", some "CA05"⟩, some []⟩
      (some "A. Politician") (some "CA05")).isErr = true :=
  c7_empty_transactions_rejected
    ⟨some ⟨some "A. Politician", some "Filed", some "CA05"⟩, some []⟩
    (some "A. Politician") (some "CA05") (Or.inr rfl)

/-! ### Claim C10 — roman-numeral-letter tokens are dropped -/

/-- C10: every nonempty token consisting solely of the letters `i`, `v`,
`x` matches the generational-suffix filter and is dropped by
`normalizeName`; in particular `"John V. Smith"` and `"John Smith"`
normalize identically and validation treats them as the same name. -/
theorem c10_ivx_tokens_dropped (t : List Char) (h1 : t ≠ [])
    (h2 : ∀ c ∈ t, c = 'i' ∨ c = 'v' ∨ c = 'x') :
    isSuffixTok t = true ∧
    normalizeName "John V. Smith" = normalizeName "John Smith" ∧
    validateGeneratedOpenAiData
      ⟨some ⟨some "John V. Smith", some "Filed", some "CA05"⟩, some [sampleTx]⟩
      (some "John Smith") (some "CA05") = .ok := by
  refine ⟨?_, by decide, by decide⟩
  simp only [isSuffixTok, Bool.or_eq_true, Bool.and_eq_true, Bool.not_eq_true']
  refine Or.inl (Or.inr ⟨?_, ?_⟩)
  · simpa [List.isEmpty_iff] using h1
  · rw [List.all_eq_true]
    intro c hc
    rcases h2 c hc with h | h | h <;> simp [h]

/-- C10 witness: the single-letter token `"v"` is dropped. -/
theorem c10_ivx_tokens_dropped_witness :
    isSuffixTok ['v'] = true ∧
    normalizeName "John V. Smith" = normalizeName "John Smith" ∧
    validateGeneratedOpenAiData
      ⟨some ⟨some "John V. Smith", some "Filed", some "CA05"⟩, some [sampleTx]⟩
      (some "John Smith") (some "CA05") = .ok :=
  c10_ivx_tokens_dropped ['v'] (by decide) (by decide)

/-! ### Insertion-sort lemmas -/

theorem insertBy_perm (le : α → α → Bool) (x : α) (l : List α) :
    (insertBy le x l).Perm (x :: l) := by
  induction l with
  | nil => simp [insertBy]
  | cons y ys ih =>
    rw [insertBy]
    split
    · exact List.Perm.refl _
    · exact ((ih.cons y).trans (List.Perm.swap x y ys))

theorem sortBy_perm (le : α → α → Bool) (l : List α) :
    (sortBy le l).Perm l := by
  induction l with
  | nil => simp [sortBy]
  | cons x xs ih =>
    exact (insertBy_perm le x (sortBy le xs)).trans (ih.cons x)

theorem insertBy_pairwise (le : α → α → Bool)
    (htrans : ∀ a b c, le a b = true → le b c = true → le a c = true)
    (htot : ∀ a b, le a b = true ∨ le b a = true) (x : α) (l : List α)
    (hl : l.Pairwise (fun a b => le a b = true)) :
    (insertBy le x l).Pairwise (fun a b => le a b = true) := by
  induction l with
  | nil => simp [insertBy]
  | cons y ys ih =>
    rw [insertBy]
    rcases List.pairwise_cons.mp hl with ⟨hy, hys⟩
    split
    · rename_i hxy
      refine List.pairwise_cons.mpr ⟨?_, hl⟩
      intro b hb
      rcases List.mem_cons.mp hb with rfl | hb
      · exact hxy
      · exact htrans x y b hxy (hy b hb)
    · rename_i hxy
      have hyx : le y x = true := by
        rcases htot x y with h | h
        · exact absurd h hxy
        · exact h
      refine List.pairwise_cons.mpr ⟨?_, ih hys⟩
      intro b hb
      have hb' := (insertBy_perm le x ys).mem_iff.mp hb
      rcases List.mem_cons.mp hb' with rfl | hb'
      · exact hyx
      · exact hy b hb'

theorem sortBy_pairwise (le : α → α → Bool)
    (htrans : ∀ a b c, le a b = true → le b c = true → le a c = true)
    (htot : ∀ a b, le a b = true ∨ le b a = true) (l : List α) :
    (sortBy le l).Pairwise (fun a b => le a b = true) := by
  induction l with
  | nil => simp [sortBy]
  | cons x xs ih => exact insertBy_pairwise le htrans htot x _ ih

/-! ### Claim C6 — Source Fetcher contract -/

theorem sortCmp_nonpos_iff (a b : Candidate) :
    sortCmp a b ≤ 0 ↔ idRank b ≤ idRank a := by
  unfold sortCmp idRank
  cases parseIntJs a.id with
  | none =>
    cases parseIntJs b.id with
    | none => simp
    | some y => simp
  | some x =>
    cases parseIntJs b.id with
    | none => simp
    | some y =>
      constructor
      · intro h
        have hyx : (y : Int) - (x : Int) ≤ 0 := h
        have hle : y ≤ x := by omega
        exact WithBot.coe_le_coe.mpr hle
      · intro h
        have hle : y ≤ x := WithBot.coe_le_coe.mp h
        show (y : Int) - (x : Int) ≤ 0
        omega

theorem candLe_trans (a b c : Candidate) (hab : candLe a b = true)
    (hbc : candLe b c = true) : candLe a c = true := by
  simp only [candLe, decide_eq_true_eq, sortCmp_nonpos_iff] at *
  exact le_trans hbc hab

theorem candLe_total (a b : Candidate) :
    candLe a b = true ∨ candLe b a = true := by
  simp only [candLe, decide_eq_true_eq, sortCmp_nonpos_iff]
  exact le_total (idRank b) (idRank a)

/-- `takeWhile` keeps a list all of whose members satisfy the predicate. -/
theorem takeWhile_all {p : α → Bool} :
    ∀ {l : List α}, (∀ c ∈ l, p c = true) → l.takeWhile p = l
  | [], _ => rfl
  | c :: cs, h => by
    rw [List.takeWhile_cons, if_pos (h c (List.mem_cons_self c cs))]
    exact congrArg (c :: ·) (takeWhile_all fun d hd => h d (List.mem_cons_of_mem c hd))

/-- An id produced by `hrefPdfId` parses to a number. -/
theorem hrefPdfId_numeric {href i : String} (h : hrefPdfId href = some i) :
    (parseIntJs i).isSome = true := by
  unfold hrefPdfId at h
  cases hdp : dropPref? (".pdf".toList.reverse) href.toList.reverse with
  | none => rw [hdp] at h; cases h
  | some revRest =>
    rw [hdp] at h
    dsimp only [] at h
    by_cases hne : (revRest.takeWhile Char.isDigit).isEmpty
    · rw [if_pos hne] at h; cases h
    · rw [if_neg hne] at h
      by_cases hslash : (revRest.dropWhile Char.isDigit).head? = some '/'
      · rw [if_pos hslash] at h
        injection h with h
        have hall : ∀ d ∈ (revRest.takeWhile Char.isDigit).reverse,
            d.isDigit = true := by
          intro d hd
          exact List.mem_takeWhile_imp (List.mem_reverse.mp hd)
        rw [← h]
        unfold parseIntJs
        have hlist : (String.mk (revRest.takeWhile Char.isDigit).reverse).toList
            = (revRest.takeWhile Char.isDigit).reverse := rfl
        rw [hlist, takeWhile_all hall]
        rw [if_neg ?_]
        · rfl
        · simpa [List.isEmpty_iff] using hne
      · rw [if_neg hslash] at h; cases h

/-- A candidate produced by `parseRow` has a numeric id. -/
theorem parseRow_numeric_id {row : Row} {cand : Candidate}
    (h : parseRow row = some cand) : (parseIntJs cand.id).isSome = true := by
  unfold parseRow at h
  cases hft : row.filingType with
  | none => rw [hft] at h; cases h
  | some ft =>
    rw [hft] at h
    dsimp only [] at h
    split at h
    · cases h
    · cases hnh : row.nameHref with
      | none => rw [hnh] at h; dsimp only [] at h; cases h
      | some href? =>
        rw [hnh] at h
        cases hot : row.officeText with
        | none => rw [hot] at h; dsimp only [] at h; cases h
        | some office =>
          rw [hot] at h
          cases hfy : row.filingYearText with
          | none => rw [hfy] at h; dsimp only [] at h; cases h
          | some fy =>
            rw [hfy] at h
            dsimp only [] at h
            cases href? with
            | none => cases h
            | some href =>
              dsimp only [] at h
              split at h
              · cases h
              · cases hid : hrefPdfId href with
                | none => rw [hid] at h; cases h
                | some i =>
                  rw [hid] at h
                  dsimp only [] at h
                  injection h with h
                  rw [← h]
                  exact hrefPdfId_numeric hid

/-- C6 counterexample: a failing fetch makes `getTransactions` propagate the
exception instead of returning an empty sequence. -/
theorem c6_fetch_failure_counterexample :
    getTransactions (.error "HTTP error! status: 500")
      = .error "HTTP error! status: 500" ∧
    getTransactions (.error "HTTP error! status: 500") ≠ .ok [] := by
  refine ⟨rfl, ?_⟩
  intro h
  cases h

/-- C6 (amended): for every fetch outcome, `getTransactions` returns the
qualifying candidates ordered by descending numeric id (every returned id
parses as a number), and returns `.ok []` — not an exception — when the
response text is falsy or no row qualifies; but a throwing fetch
(`fetchPolititianTransactions` rethrows on network failure or a non-OK
status) propagates out of `getTransactions` and `getLatestTransaction` as
an exception. -/
theorem c6_fetcher_contract (rows rows2 : List Row) (e : String)
    (hall : ∀ row ∈ rows2, parseRow row = none) :
    getTransactions (.error e) = .error e ∧
    getLatestTransaction (.error e) = .error e ∧
    getTransactions (.ok none) = .ok [] ∧
    getTransactions (.ok (some rows2)) = .ok [] ∧
    (okList (getTransactions (.ok (some rows)))).Pairwise
      (fun a b => idRank b ≤ idRank a) ∧
    (∀ cand ∈ okList (getTransactions (.ok (some rows))),
      (parseIntJs cand.id).isSome = true) := by
  refine ⟨rfl, rfl, rfl, ?_, ?_, ?_⟩
  · simp only [getTransactions, sortByIdDescending]
    rw [List.filterMap_eq_nil_iff.mpr ?_]
    · rfl
    · intro row hrow
      simp [hall row hrow]
  · have hpw := sortBy_pairwise candLe candLe_trans candLe_total
      (rows.filterMap parseRow)
    refine List.Pairwise.imp ?_ hpw
    intro a b hab
    exact (sortCmp_nonpos_iff a b).mp (by simpa [candLe] using hab)
  · intro cand hc
    have hmem : cand ∈ rows.filterMap parseRow :=
      (sortBy_perm candLe _).mem_iff.mp hc
    rcases List.mem_filterMap.mp hmem with ⟨row, _, hrow⟩
    exact parseRow_numeric_id hrow

/-- C6 witness: the fetcher contract at two qualifying rows, one
non-qualifying row and a failing fetch. -/
theorem c6_fetcher_contract_witness :
    getTransactions (.error "HTTP error! status: 500")
      = .error "HTTP error! status: 500" ∧
    getLatestTransaction (.error "HTTP error! status: 500")
      = .error "HTTP error! status: 500" ∧
    getTransactions (.ok none) = .ok [] ∧
    getTransactions (.ok (some [sampleRowSkip])) = .ok [] ∧
    (okList (getTransactions (.ok (some [sampleRowA, sampleRowB])))).Pairwise
      (fun a b => idRank b ≤ idRank a) ∧
    (∀ cand ∈ okList (getTransactions (.ok (some [sampleRowA, sampleRowB]))),
      (parseIntJs cand.id).isSome = true) :=
  c6_fetcher_contract [sampleRowA, sampleRowB] [sampleRowSkip]
    "HTTP error! status: 500" (by decide)

/-! ### Claim C9 — broadcast failure isolation -/

/-- Characterisation of the `sendSSEUpdate` loop: starting from any
registry, every client whose write succeeds is delivered to, and exactly
the ids of the visited clients whose writes fail are filtered out of the
registry. -/
theorem broadcastGo_spec (remaining : List Client) :
    ∀ (registry : List Client) (delivered : List Nat),
    broadcastGo remaining registry delivered =
      (registry.filter fun x =>
        !(remaining.any fun c => !c.writeOk && c.id == x.id),
       delivered ++ (remaining.filter fun c => c.writeOk).map Client.id) := by
  induction remaining with
  | nil => intro registry delivered; simp [broadcastGo]
  | cons c rest ih =>
    intro registry delivered
    by_cases hc : c.writeOk
    · rw [broadcastGo, if_pos hc, ih]
      refine congrArg₂ Prod.mk ?_ ?_
      · apply List.filter_congr
        intro x _
        simp [hc]
      · simp [hc]
    · rw [broadcastGo, if_neg hc, ih]
      refine congrArg₂ Prod.mk ?_ ?_
      · rw [List.filter_filter]
        apply List.filter_congr
        intro x _
        have hco : (x.id == c.id) = (c.id == x.id) := by
          by_cases hxc : x.id = c.id
          · simp [hxc]
          · have h1 : (x.id == c.id) = false := by
              simpa [beq_iff_eq] using hxc
            have h2 : (c.id == x.id) = false := by
              simpa [beq_iff_eq] using fun h => hxc h.symm
            rw [h1, h2]
        simp [hc, List.any_cons, Bool.not_or, hco]
        rw [Bool.and_comm]
      · simp [hc]

/-- C9 counterexample: the legacy `transactionUpdate` broadcast (index.js)
has no per-subscriber error handling — with three subscribers of which the
second one's channel fails, the write error propagates to the caller (so
the third subscriber is never written to and nobody is removed). -/
theorem c9_legacy_counterexample :
    transactionUpdateLegacy [⟨1, true⟩, ⟨2, false⟩, ⟨3, true⟩]
      = .error "write failed" := by
  rfl

/-- C9 (amended): `sendSSEUpdate` (transactionDataSSE.js) isolates write
failures — every subscriber whose write succeeds receives the event, exactly
the failing subscribers are removed from the registry, and no error
propagates; but the legacy `transactionUpdate` (index.js) aborts at the
first failing write and propagates the error without removing anyone. -/
theorem c9_broadcast_isolation (cs pre post : List Client) (c : Client)
    (hnodup : (cs.map Client.id).Nodup)
    (hpre : ∀ x ∈ pre, x.writeOk = true) (hc : c.writeOk = false) :
    sendSSEUpdate cs =
      (cs.filter fun x => x.writeOk,
       (cs.filter fun x => x.writeOk).map Client.id) ∧
    transactionUpdateLegacy (pre ++ c :: post) = .error "write failed" := by
  constructor
  · have hpw : cs.Pairwise fun a b => a.id ≠ b.id := by
      simpa [List.Nodup, List.pairwise_map] using hnodup
    have hsymm : Symmetric fun (a b : Client) => a.id ≠ b.id :=
      fun _ _ h h2 => h h2.symm
    have hids := hpw.forall hsymm
    rw [sendSSEUpdate, broadcastGo_spec]
    refine congrArg₂ Prod.mk ?_ rfl
    apply List.filter_congr
    intro x hx
    cases hwx : x.writeOk with
    | true =>
      cases hany : (cs.any fun c' => !c'.writeOk && c'.id == x.id) with
      | false => rfl
      | true =>
        exfalso
        rw [List.any_eq_true] at hany
        obtain ⟨c', hc', hcc⟩ := hany
        simp only [Bool.and_eq_true, Bool.not_eq_true', beq_iff_eq] at hcc
        obtain ⟨hw', hid⟩ := hcc
        have hne : c' ≠ x := fun hcx => by
          rw [hcx, hwx] at hw'
          cases hw'
        exact hids hc' hx hne hid
    | false =>
      cases hany : (cs.any fun c' => !c'.writeOk && c'.id == x.id) with
      | true => rfl
      | false =>
        exfalso
        rw [List.any_eq_false] at hany
        have hx' := hany x hx
        rw [hwx] at hx'
        simp at hx'
  · induction pre with
    | nil =>
      rw [List.nil_append]
      simp [transactionUpdateLegacy, hc]
    | cons p ps ih =>
      have hp : p.writeOk = true := hpre p (List.mem_cons_self p ps)
      have hps : ∀ x ∈ ps, x.writeOk = true :=
        fun x hx => hpre x (List.mem_cons_of_mem p hx)
      rw [List.cons_append, transactionUpdateLegacy, if_pos hp, ih hps]

/-- C9 witness: three subscribers, the middle one closed — the other two
receive the event and only the closed one is removed; the legacy broadcast
on the same registry propagates the failure. -/
theorem c9_broadcast_isolation_witness :
    sendSSEUpdate [⟨1, true⟩, ⟨2, false⟩, ⟨3, true⟩] =
      ([⟨1, true⟩, ⟨3, true⟩], [1, 3]) ∧
    transactionUpdateLegacy [⟨1, true⟩, ⟨2, false⟩, ⟨3, true⟩]
      = .error "write failed" := by
  have h := c9_broadcast_isolation [⟨1, true⟩, ⟨2, false⟩, ⟨3, true⟩]
    [⟨1, true⟩] [⟨3, true⟩] ⟨2, false⟩ (by decide) (by decide) rfl
  exact ⟨by rw [h.1]; rfl, h.2⟩

/-! ### Claim C5 — conversion of unfenced / invalid responses -/

/-- C5: when `extractStringBetweenBackticks` locates no valid JSON (neither
the whole response nor any fenced block parses), `convertPDFToJSON` does
not raise: `isJSON` always answers `false` (it tests the undeclared
identifier `text`), the extraction helper returns the boolean `false`, and
`JSON.parse(false)` parses the coerced string `"false"`, so the boolean
`false` is returned as converted data.  Fenced responses containing a valid
JSON block are unwrapped and their parsed payload returned. -/
theorem c5_conversion_no_json (parse : String → Option JsVal)
    (text text2 s : String) (v : JsVal)
    (hnone : extractStringBetweenBackticks parse text = none)
    (hfalse : parse "false" = some (.boolean false))
    (hsome : extractStringBetweenBackticks parse text2 = some s)
    (hv : parse s = some v) :
    convertPDFToJSON parse text = .ok (.boolean false) ∧
    convertPDFToJSON parse text2 = .ok v := by
  constructor
  · simp [convertPDFToJSON, isJSON, hnone, jsToString, hfalse]
  · simp [convertPDFToJSON, isJSON, hsome, hv]

/-- C5 witness: the response `"this is not JSON"` (no fenced block, not
valid JSON) is converted to the boolean `false` instead of an error, and a
fenced response containing `{}` is unwrapped to its payload. -/
theorem c5_conversion_no_json_witness :
    convertPDFToJSON parseStub "this is not JSON" = .ok (.boolean false) ∧
    convertPDFToJSON parseStub "```json {} ```" = .ok .other :=
  c5_conversion_no_json parseStub "this is not JSON" "```json {} ```" "{}"
    .other (by decide) (by decide) (by decide) (by decide)

/-! ### Claim C8 — normalization algebra -/

theorem charEq_of_toNat_eq {a b : Char} (h : a.toNat = b.toNat) : a = b :=
  Char.eq_of_val_eq (UInt32.ext h)

theorem tokLe_total : ∀ a b : List Char, tokLe a b = true ∨ tokLe b a = true
  | [], _ => by left; rfl
  | _ :: _, [] => by right; rfl
  | a :: as, b :: bs => by
    by_cases h1 : a.toNat < b.toNat
    · left; simp [tokLe, h1]
    · by_cases h2 : b.toNat < a.toNat
      · right; simp [tokLe, h2]
      · rcases tokLe_total as bs with h | h
        · left; simp [tokLe, h1, h2, h]
        · right; simp [tokLe, h1, h2, h]

theorem tokLe_trans :
    ∀ a b c : List Char, tokLe a b = true → tokLe b c = true →
      tokLe a c = true
  | [], _, _, _, _ => rfl
  | a :: as, [], _, hab, _ => by simp [tokLe] at hab
  | _ :: _, _ :: _, [], _, hbc => by simp [tokLe] at hbc
  | a :: as, b :: bs, c :: cs, hab, hbc => by
    simp only [tokLe] at hab hbc ⊢
    by_cases h1 : a.toNat < b.toNat <;> by_cases h2 : b.toNat < c.toNat <;>
      by_cases h3 : b.toNat < a.toNat <;> by_cases h4 : c.toNat < b.toNat <;>
        simp [h1, h2, h3, h4] at hab hbc ⊢ <;>
          first
          | omega
          | (constructor <;> omega)
          | (exact Or.inr ⟨by omega, tokLe_trans as bs cs hab hbc⟩)

theorem tokLe_antisymm :
    ∀ a b : List Char, tokLe a b = true → tokLe b a = true → a = b
  | [], [], _, _ => rfl
  | [], _ :: _, _, hba => by simp [tokLe] at hba
  | _ :: _, [], hab, _ => by simp [tokLe] at hab
  | a :: as, b :: bs, hab, hba => by
    simp only [tokLe] at hab hba
    by_cases h1 : a.toNat < b.toNat
    · simp [h1, Nat.lt_asymm h1] at hab hba
    · by_cases h2 : b.toNat < a.toNat
      · simp [h1, h2] at hab
      · simp [h1, h2] at hab hba
        have : a = b := charEq_of_toNat_eq (by omega)
        rw [this, tokLe_antisymm as bs hab hba]

instance : IsAntisymm (List Char) (fun a b => tokLe a b = true) :=
  ⟨tokLe_antisymm⟩

theorem dropPref?_eq_some :
    ∀ {p s r : List Char}, dropPref? p s = some r ↔ s = p ++ r
  | [], s, r => by simp [dropPref?]
  | p :: ps, [], r => by simp [dropPref?]
  | p :: ps, c :: cs, r => by
    rw [dropPref?]
    by_cases h : p = c
    · subst h
      rw [if_pos rfl]
      rw [@dropPref?_eq_some ps cs r]
      simp
    · rw [if_neg h]
      simp [Ne.symm h, h]

theorem joinSp_cons (t : List Char) (ts : List (List Char)) :
    joinSp (t :: ts) = t ++ joinTail ts := by
  cases ts with
  | nil => simp [joinSp, joinTail]
  | cons t2 ts' => rfl

/-- A list maps to itself when the function fixes every member. -/
theorem map_self_of {f : α → α} :
    ∀ {l : List α}, (∀ x ∈ l, f x = x) → l.map f = l
  | [], _ => rfl
  | x :: xs, h => by
    rw [List.map_cons, h x (List.mem_cons_self x xs),
      map_self_of fun y hy => h y (List.mem_cons_of_mem x hy)]

/-- Characters of a space-join are spaces or token characters. -/
theorem mem_joinSp :
    ∀ {toks : List (List Char)} {c : Char}, c ∈ joinSp toks →
      c = ' ' ∨ ∃ t ∈ toks, c ∈ t := by
  intro toks
  induction toks with
  | nil => intro c hc; cases hc
  | cons t ts ih =>
    intro c hc
    rw [joinSp_cons] at hc
    rcases List.mem_append.mp hc with hc | hc
    · exact Or.inr ⟨t, List.mem_cons_self t ts, hc⟩
    · cases ts with
      | nil => cases hc
      | cons t2 ts' =>
        simp only [joinTail] at hc
        rcases List.mem_cons.mp hc with rfl | hc
        · exact Or.inl rfl
        · rcases ih hc with h | ⟨t', ht', hct'⟩
          · exact Or.inl h
          · exact Or.inr ⟨t', List.mem_cons_of_mem t ht', hct'⟩

theorem lowerChars_joinSp {toks : List (List Char)}
    (h : ∀ t ∈ toks, ∀ c ∈ t, c.toLower = c) :
    lowerChars (joinSp toks) = joinSp toks := by
  unfold lowerChars
  apply map_self_of
  intro c hc
  rcases mem_joinSp hc with rfl | ⟨t, ht, hct⟩
  · decide
  · exact h t ht c hct

/-- The anchored-honorific replace leaves a clean join alone when no token
is the honorific itself. -/
theorem stripLeadingTitle_joinSp (tok : List Char) (htok : tok ≠ [])
    (htokc : ∀ c ∈ tok, isJsWs c = false)
    {toks : List (List Char)} (hclean : ∀ t ∈ toks, CleanTok t)
    (hne : ∀ t ∈ toks, t ≠ tok) :
    stripLeadingTitle tok (joinSp toks) = joinSp toks := by
  unfold stripLeadingTitle
  cases hdp : dropPref? tok (joinSp toks) with
  | none => rfl
  | some rest =>
    have heq : joinSp toks = tok ++ rest := dropPref?_eq_some.mp hdp
    cases toks with
    | nil =>
      exfalso
      rw [joinSp] at heq
      cases tok with
      | nil => exact htok rfl
      | cons p ps => cases heq
    | cons t ts =>
      rw [joinSp_cons] at heq
      rcases List.append_eq_append_iff.mp heq with ⟨w, hw1, hw2⟩ | ⟨w, hw1, hw2⟩
      · -- tok = t ++ w and joinTail ts = w ++ rest
        cases w with
        | nil =>
          exfalso
          rw [List.append_nil] at hw1
          exact hne t (List.mem_cons_self t ts) hw1.symm
        | cons cW w' =>
          exfalso
          have hcW : cW ∈ tok := by
            rw [hw1]
            exact List.mem_append_right t (List.mem_cons_self cW w')
          have hcWf : isJsWs cW = false := htokc cW hcW
          cases ts with
          | nil => rw [joinTail] at hw2; cases hw2
          | cons t2 ts' =>
            simp only [joinTail] at hw2
            have : cW = ' ' := (List.cons.injEq _ _ _ _ ▸ hw2).1.symm
            rw [this] at hcWf
            cases hcWf
      · -- t = tok ++ w and rest = w ++ joinTail ts
        cases w with
        | nil =>
          exfalso
          rw [List.append_nil] at hw1
          exact hne t (List.mem_cons_self t ts) hw1
        | cons cW w' =>
          have hcW : cW ∈ t := by
            rw [hw1]
            exact List.mem_append_right tok (List.mem_cons_self cW w')
          have hprops := (hclean t (List.mem_cons_self t ts)).2 cW hcW
          rw [List.cons_append] at hw2
          rw [hw2]
          dsimp only []
          simp only [List.head?_cons, Option.some.injEq]
          rw [if_neg hprops.2.1]
          simp only [List.head?_cons]
          rw [hprops.1]
          rfl

/-- The embedded-honorific replace leaves non-whitespace text followed by a
clean tail of tokens alone when no token is the honorific itself. -/
theorem stripEmbedded_clean_append (tok : List Char) (htok : tok ≠ [])
    (htokc : ∀ c ∈ tok, isJsWs c = false)
    (toks : List (List Char)) :
    ∀ (u : List Char), (∀ c ∈ u, isJsWs c = false) →
      (∀ t ∈ toks, CleanTok t) → (∀ t ∈ toks, t ≠ tok) →
      stripEmbedded tok (u ++ joinTail toks) = u ++ joinTail toks := by
  induction toks with
  | nil =>
    intro u hu _ _
    rw [joinTail, List.append_nil]
    induction u with
    | nil => rfl
    | cons c u' ihu =>
      have hc : isJsWs c = false := hu c (List.mem_cons_self c u')
      rw [stripEmbedded, embMatchAt]
      rw [hc]
      simp only [Bool.false_eq_true, if_false]
      rw [ihu fun d hd => hu d (List.mem_cons_of_mem c hd)]
  | cons t ts ihts =>
    intro u hu hclean hne
    have hct : CleanTok t := hclean t (List.mem_cons_self t ts)
    have hcleants : ∀ t' ∈ ts, CleanTok t' :=
      fun t' ht' => hclean t' (List.mem_cons_of_mem t ht')
    have hnets : ∀ t' ∈ ts, t' ≠ tok :=
      fun t' ht' => hne t' (List.mem_cons_of_mem t ht')
    induction u with
    | nil =>
      rw [List.nil_append]
      rw [show joinTail (t :: ts) = ' ' :: joinSp (t :: ts) from rfl]
      have hdw : (' ' :: joinSp (t :: ts)).dropWhile isJsWs
          = t ++ joinTail ts := by
        rw [List.dropWhile_cons, if_pos (by decide), joinSp_cons]
        cases t with
        | nil => exact absurd rfl hct.1
        | cons c t' =>
          rw [List.cons_append, List.dropWhile_cons,
            if_neg (by simp [(hct.2 c (List.mem_cons_self c t')).1])]
      have hm : embMatchAt tok (' ' :: joinSp (t :: ts)) = none := by
        rw [embMatchAt]
        rw [show isJsWs ' ' = true from rfl]
        simp only [if_true]
        rw [hdw]
        cases hdp : dropPref? tok (t ++ joinTail ts) with
        | none => rfl
        | some s2 =>
          have heq : t ++ joinTail ts = tok ++ s2 := dropPref?_eq_some.mp hdp
          rcases List.append_eq_append_iff.mp heq with ⟨w, hw1, hw2⟩ |
            ⟨w, hw1, hw2⟩
          · cases w with
            | nil =>
              exfalso
              rw [List.append_nil] at hw1
              exact hne t (List.mem_cons_self t ts) hw1.symm
            | cons cW w' =>
              exfalso
              have hcW : cW ∈ tok := by
                rw [hw1]
                exact List.mem_append_right t (List.mem_cons_self cW w')
              have hcWf : isJsWs cW = false := htokc cW hcW
              cases ts with
              | nil => rw [joinTail] at hw2; cases hw2
              | cons t2 ts' =>
                simp only [joinTail] at hw2
                have : cW = ' ' := (List.cons.injEq _ _ _ _ ▸ hw2).1.symm
                rw [this] at hcWf
                cases hcWf
          · cases w with
            | nil =>
              exfalso
              rw [List.append_nil] at hw1
              exact hne t (List.mem_cons_self t ts) hw1
            | cons cW w' =>
              have hcW : cW ∈ t := by
                rw [hw1]
                exact List.mem_append_right tok (List.mem_cons_self cW w')
              have hprops := hct.2 cW hcW
              rw [List.cons_append] at hw2
              rw [hw2]
              dsimp only []
              simp only [List.head?_cons, Option.some.injEq]
              rw [if_neg hprops.2.1]
              dsimp only []
              rw [hprops.1]
              rfl
      rw [stripEmbedded, hm]
      rw [joinSp_cons]
      rw [ihts t (fun c hc => (hct.2 c hc).1) hcleants hnets]
    | cons c u' ihu =>
      have hc : isJsWs c = false := hu c (List.mem_cons_self c u')
      rw [List.cons_append, stripEmbedded, embMatchAt]
      rw [hc]
      simp only [Bool.false_eq_true, if_false]
      rw [show (u' ++ joinTail (t :: ts)) =
        u' ++ joinTail (t :: ts) from rfl]
      rw [ihu fun d hd => hu d (List.mem_cons_of_mem c hd)]

/-- The embedded-honorific replace leaves a clean join alone. -/
theorem stripEmbedded_joinSp (tok : List Char) (htok : tok ≠ [])
    (htokc : ∀ c ∈ tok, isJsWs c = false)
    {toks : List (List Char)} (hclean : ∀ t ∈ toks, CleanTok t)
    (hne : ∀ t ∈ toks, t ≠ tok) :
    stripEmbedded tok (joinSp toks) = joinSp toks := by
  cases toks with
  | nil => rfl
  | cons t ts =>
    rw [joinSp_cons]
    exact stripEmbedded_clean_append tok htok htokc ts t
      (fun c hc => ((hclean t (List.mem_cons_self t ts)).2 c hc).1)
      (fun t' ht' => hclean t' (List.mem_cons_of_mem t ht'))
      (fun t' ht' => hne t' (List.mem_cons_of_mem t ht'))

/-- Reading a run of non-whitespace characters accumulates them onto
`cur`. -/
theorem splitTokensGo_chunk (t : List Char) :
    ∀ (cur rest : List Char), (∀ c ∈ t, isJsWs c = false) →
      splitTokensGo cur (t ++ rest) = splitTokensGo (t.reverse ++ cur) rest := by
  induction t with
  | nil => intro cur rest _; simp
  | cons c t' ih =>
    intro cur rest ht
    have hc : isJsWs c = false := ht c (List.mem_cons_self c t')
    rw [List.cons_append]
    rw [splitTokensGo]
    rw [hc]
    simp only [Bool.false_eq_true, if_false]
    rw [ih (c :: cur) rest fun d hd => ht d (List.mem_cons_of_mem c hd)]
    rw [List.reverse_cons, List.append_assoc]
    rfl

/-- Splitting a space-join of nonempty whitespace-free tokens recovers the
tokens. -/
theorem splitTokens_joinSp :
    ∀ {toks : List (List Char)},
      (∀ t ∈ toks, t ≠ [] ∧ ∀ c ∈ t, isJsWs c = false) →
      splitTokens (joinSp toks) = toks := by
  intro toks
  induction toks with
  | nil => intro _; rfl
  | cons t ts ih =>
    intro h
    have ht := h t (List.mem_cons_self t ts)
    rw [joinSp_cons, splitTokens,
      splitTokensGo_chunk t [] (joinTail ts) ht.2, List.append_nil]
    cases ts with
    | nil =>
      rw [joinTail, splitTokensGo]
      rw [if_neg ?_]
      · rw [List.reverse_reverse]
      · simp only [List.isEmpty_eq_true, List.reverse_eq_nil_iff]
        exact ht.1
    | cons t2 ts' =>
      rw [show joinTail (t2 :: ts') = ' ' :: joinSp (t2 :: ts') from rfl]
      rw [splitTokensGo]
      rw [show isJsWs ' ' = true from rfl]
      simp only [if_true]
      rw [if_neg ?_]
      · rw [List.reverse_reverse]
        rw [show splitTokensGo [] (joinSp (t2 :: ts'))
          = splitTokens (joinSp (t2 :: ts')) from rfl]
        rw [ih fun t' ht' => h t' (List.mem_cons_of_mem t ht')]
      · simp only [List.isEmpty_eq_true, List.reverse_eq_nil_iff]
        exact ht.1

theorem sortToks_sorted (l : List (List Char)) :
    (sortToks l).Pairwise (fun a b => tokLe a b = true) :=
  sortBy_pairwise tokLe tokLe_trans tokLe_total l

theorem sortToks_eq_of_sorted {l : List (List Char)}
    (h : l.Pairwise fun a b => tokLe a b = true) : sortToks l = l :=
  List.eq_of_perm_of_sorted (sortBy_perm tokLe l) (sortToks_sorted l) h

/-- On a clean, honorific-free space-join, `normalizeName` is exactly
tokenize → drop generational suffixes → sort → rejoin. -/
theorem normalizeName_joinSp (toks : List (List Char))
    (hclean : ∀ t ∈ toks, CleanTok t) (hfree : ∀ t ∈ toks, TitleFree t) :
    normalizeName (String.mk (joinSp toks)) =
      String.mk (joinSp (sortToks (toks.filter fun t => !isSuffixTok t))) := by
  simp only [normalizeName]
  have h0 : (String.mk (joinSp toks)).toList = joinSp toks := rfl
  rw [h0]
  rw [lowerChars_joinSp fun t ht c hc => ((hclean t ht).2 c hc).2.2.2]
  rw [stripLeadingTitle_joinSp ['h', 'o', 'n'] (by decide) (by decide) hclean
    fun t ht => (hfree t ht).1]
  rw [stripLeadingTitle_joinSp ['d', 'r'] (by decide) (by decide) hclean
    fun t ht => (hfree t ht).2.1]
  rw [stripEmbedded_joinSp ['m', 'r', 's'] (by decide) (by decide) hclean
    fun t ht => (hfree t ht).2.2.2]
  rw [stripEmbedded_joinSp ['m', 'r'] (by decide) (by decide) hclean
    fun t ht => (hfree t ht).2.2.1]
  have hpunct : List.filter (fun c => !(c == '.' || c == ','))
      (joinSp toks) = joinSp toks := by
    rw [List.filter_eq_self]
    intro c hc
    rcases mem_joinSp hc with rfl | ⟨t, ht, hct⟩
    · decide
    · have hp := (hclean t ht).2 c hct
      simp [beq_iff_eq, hp.2.1, hp.2.2.1]
  rw [hpunct]
  rw [splitTokens_joinSp fun t ht =>
    ⟨(hclean t ht).1, fun c hc => ((hclean t ht).2 c hc).1⟩]

/-- C8 counterexample: full normalization is neither idempotent nor
order-insensitive — `"hon hon smith"` normalizes to `"hon smith"` but
renormalizing gives `"smith"`, and the token orderings `"hon john"` /
`"john hon"` normalize differently. -/
theorem c8_normalize_counterexample :
    normalizeName (normalizeName "hon hon smith") ≠ normalizeName "hon hon smith" ∧
    normalizeName "hon john" ≠ normalizeName "john hon" := by
  decide

/-- C8 (amended): on honorific-free names, normalization is
order-insensitive and idempotent: for token lists whose tokens are
nonempty, lowercase, free of whitespace, periods and commas, and distinct
from the title tokens `hon`/`dr`/`mr`/`mrs`, any two orderings of the same
tokens normalize to the same string, and normalization is idempotent on
such joins; in particular `normalizeName "John Smith" = normalizeName
"Smith John"`.  (In general both properties fail, see the
counterexample.) -/
theorem c8_normalize_clean (toks toks' : List (List Char))
    (hperm : toks.Perm toks') (hclean : ∀ t ∈ toks, CleanTok t)
    (hfree : ∀ t ∈ toks, TitleFree t) :
    normalizeName (String.mk (joinSp toks))
      = normalizeName (String.mk (joinSp toks')) ∧
    normalizeName (normalizeName (String.mk (joinSp toks)))
      = normalizeName (String.mk (joinSp toks)) ∧
    normalizeName "John Smith" = normalizeName "Smith John" := by
  have hclean' : ∀ t ∈ toks', CleanTok t :=
    fun t ht => hclean t (hperm.mem_iff.mpr ht)
  have hfree' : ∀ t ∈ toks', TitleFree t :=
    fun t ht => hfree t (hperm.mem_iff.mpr ht)
  have h1 := normalizeName_joinSp toks hclean hfree
  have h2 := normalizeName_joinSp toks' hclean' hfree'
  have hfp : (toks.filter fun t => !isSuffixTok t).Perm
      (toks'.filter fun t => !isSuffixTok t) := hperm.filter _
  have hsorteq : sortToks (toks.filter fun t => !isSuffixTok t)
      = sortToks (toks'.filter fun t => !isSuffixTok t) :=
    List.eq_of_perm_of_sorted
      ((sortBy_perm tokLe _).trans (hfp.trans (sortBy_perm tokLe _).symm))
      (sortToks_sorted _) (sortToks_sorted _)
  refine ⟨?_, ?_, by decide⟩
  · rw [h1, h2, hsorteq]
  · have hmem₂ : ∀ t ∈ sortToks (toks.filter fun t => !isSuffixTok t),
        t ∈ toks := by
      intro t ht
      exact List.mem_of_mem_filter ((sortBy_perm tokLe _).mem_iff.mp ht)
    have h3 := normalizeName_joinSp (sortToks (toks.filter fun t => !isSuffixTok t))
      (fun t ht => hclean t (hmem₂ t ht)) (fun t ht => hfree t (hmem₂ t ht))
    rw [h1, h3]
    have hfilt : (sortToks (toks.filter fun t => !isSuffixTok t)).filter
        (fun t => !isSuffixTok t) = sortToks (toks.filter fun t => !isSuffixTok t) := by
      rw [List.filter_eq_self]
      intro t ht
      exact @List.of_mem_filter _ (fun t => !isSuffixTok t) t _
        ((sortBy_perm tokLe _).mem_iff.mp ht)
    rw [hfilt, sortToks_eq_of_sorted (sortToks_sorted _)]

/-- C8 witness: the amended properties at the two orderings of the clean
tokens `john`, `smith`. -/
theorem c8_normalize_clean_witness :
    normalizeName (String.mk (joinSp [['j', 'o', 'h', 'n'], ['s', 'm', 'i', 't', 'h']]))
      = normalizeName (String.mk (joinSp [['s', 'm', 'i', 't', 'h'], ['j', 'o', 'h', 'n']])) ∧
    normalizeName (normalizeName
        (String.mk (joinSp [['j', 'o', 'h', 'n'], ['s', 'm', 'i', 't', 'h']])))
      = normalizeName (String.mk (joinSp [['j', 'o', 'h', 'n'], ['s', 'm', 'i', 't', 'h']])) ∧
    normalizeName "John Smith" = normalizeName "Smith John" :=
  c8_normalize_clean [['j', 'o', 'h', 'n'], ['s', 'm', 'i', 't', 'h']]
    [['s', 'm', 'i', 't', 'h'], ['j', 'o', 'h', 'n']]
    (by decide) (by decide) (by decide)

end PolitScrape
